import Mathlib

/-!
Verification of the ovis-framework ECS core against its specification.

The definitions below are a shallow embedding of the Rust sources:
  * `src/core/src/versioned_index_id.rs` — packed (index, version) handles;
  * `src/src/id_storage.rs`              — generational id allocator;
  * `src/src/resource.rs` (identical to `src/core/src/resource/id_mapped_storage.rs`)
                                         — sparse id-mapped resource storage;
  * `src/src/scheduler.rs`               — job completion / frame bookkeeping;
  * `src/core/src/scene.rs`              — scene resource lookup and JSON ingestion.

Machine integers are modelled by `Nat`; the wrapping `& MAX_VERSION` of the
source becomes `% NUM_VERSIONS` (identical for the power-of-two modulus).
`Vec` indexing that the source performs after establishing bounds is modelled
with `List.getD`; where the source can panic on an out-of-range index the
model makes the panic observable (documented at the definition).
-/

namespace Ovis

/-- All id spaces in the repository use `StandardVersionedIndexId<8>`
(`EntityId`, `ViewportId`, `ResourceId`; `JobId` uses the same default). -/
def VERSION_BITS : Nat := 8

/-- `INDEX_BITS = size_of::<i32>() * 8 - VERSION_BITS` (versioned_index_id.rs:86). -/
def INDEX_BITS : Nat := 32 - VERSION_BITS

def NUM_INDICES : Nat := 2 ^ INDEX_BITS

def MAX_INDEX : Nat := NUM_INDICES - 1

def NUM_VERSIONS : Nat := 2 ^ VERSION_BITS

def MAX_VERSION : Nat := NUM_VERSIONS - 1

/-- `StandardVersionedIndexId<8>` (versioned_index_id.rs:70-115).  The source
packs `index + (version << INDEX_BITS)` into one `u32`; we keep the two fields
unpacked.  For in-range fields (index < 2^24, version < 2^8 — the constructors
assert exactly this) the packing is injective, so structural equality of this
record coincides with the bitwise equality of the source. -/
structure VIdx where
  index : Nat
  version : Nat
deriving DecidableEq, Repr

/-- `from_index` (versioned_index_id.rs:93): version 0.  The source asserts
`index < NUM_INDICES`; call sites below establish this bound. -/
def VIdx.fromIndex (i : Nat) : VIdx := ⟨i, 0⟩

/-- `next_version_id` (versioned_index_id.rs:112-114):
`(version + 1) & MAX_VERSION`, index unchanged. -/
def VIdx.nextVersionId (id : VIdx) : VIdx :=
  ⟨id.index, (id.version + 1) % NUM_VERSIONS⟩

/-- The default id used to fill getD-reads; the source never reads these
positions when its asserts hold. -/
def VIdx.zero : VIdx := ⟨0, 0⟩

/-! ### IdStorage (src/src/id_storage.rs)

State: an ordered sequence of ids indexed by slot position, a head index into
an embedded free list and a free-list length (id_storage.rs:5-9). -/

structure IdStorage where
  ids : List VIdx
  free_list_head : Nat
  free_list_size : Nat
deriving DecidableEq, Repr

namespace IdStorage

/-- `const FREE_LIST_END: usize = Id::MAX_INDEX` (id_storage.rs:12). -/
def FREE_LIST_END : Nat := MAX_INDEX

/-- `IdStorage::new` (id_storage.rs:15-21). -/
def new : IdStorage := ⟨[], FREE_LIST_END, 0⟩

/-- `IdStorage::len` (id_storage.rs:23-25). -/
def len (s : IdStorage) : Nat := s.ids.length - s.free_list_size

/-- `IdStorage::reserve` (id_storage.rs:27-43).  Returns the updated storage
and the reserved id. -/
def reserve (s : IdStorage) : IdStorage × VIdx :=
  if s.free_list_head ≠ FREE_LIST_END then
    let index := s.free_list_head
    let indexed_id := s.ids.getD index VIdx.zero
    let id := VIdx.nextVersionId ⟨index, indexed_id.version⟩
    (⟨s.ids.set index id, indexed_id.index, s.free_list_size - 1⟩, id)
  else
    let id := VIdx.fromIndex s.ids.length
    (⟨s.ids ++ [id], s.free_list_head, s.free_list_size⟩, id)

/-- `IdStorage::contains` (id_storage.rs:53-55). -/
def contains (s : IdStorage) (id : VIdx) : Bool :=
  decide (id.index < s.ids.length) && (s.ids.getD id.index VIdx.zero == id)

/-- `IdStorage::free` (id_storage.rs:45-51).  The source first asserts
`contains(id)`; this definition is the body after the assert, and every
theorem about it carries the `contains` hypothesis the assert establishes. -/
def free (s : IdStorage) (id : VIdx) : IdStorage :=
  ⟨s.ids.set id.index ⟨s.free_list_head, id.version⟩, id.index, s.free_list_size + 1⟩

/-- The embedded free list: starting at `head`, follow the index field stored
in each free slot for exactly `fuel` steps, expecting to land on
`FREE_LIST_END`.  Returns the visited slot positions. -/
def chainNodes (ids : List VIdx) : Nat → Nat → Option (List Nat)
  | head, 0 => if head = FREE_LIST_END then some [] else none
  | head, n + 1 =>
    if head < ids.length then
      (chainNodes ids (ids.getD head VIdx.zero).index n).map (head :: ·)
    else none

/-- The free chain of a storage: `free_list_size` links from `free_list_head`
ending at the sentinel. -/
def freeChain (s : IdStorage) : Option (List Nat) :=
  chainNodes s.ids s.free_list_head s.free_list_size

/-- Well-formedness of an `IdStorage`: the slot count stays within the id
space and the embedded free list is an acyclic chain of `free_list_size`
slots.  `new` satisfies it and (as proved below) `reserve`/`free` preserve
it. -/
def wf (s : IdStorage) : Bool :=
  decide (s.ids.length ≤ MAX_INDEX) &&
    match freeChain s with
    | some l => decide l.Nodup
    | none => false

end IdStorage


/-- Reserving `n` fresh ids in sequence (the spawn-drain loop of
`Scheduler::run_jobs`, scheduler.rs:441-443, performs one `reserve` per
drained spawn request). -/
def IdStorage.reserveN (s : IdStorage) : Nat → IdStorage
  | 0 => s
  | n + 1 => IdStorage.reserveN (s.reserve).1 n

/-- One reserve immediately followed by freeing the returned id; iterating
this exercises the version counter of a single slot. -/
def IdStorage.cycleReserveFree (s : IdStorage) : IdStorage :=
  (s.reserve).1.free (s.reserve).2

/-! ### Errors (src/core/src/result.rs) -/

/-- `SourceLocation` (result.rs:4-7). -/
inductive SourceLocation where
  | textFile (filename : String) (line : Nat)
  | jobFile (filename : String) (path : String)
deriving DecidableEq, Repr

/-- `Error` (result.rs:26-30). -/
structure Error where
  message : String
  source : SourceLocation
deriving DecidableEq, Repr

/-- `crate::Result<()>` — the value carried on the frame-result channel. -/
inductive FrameResult where
  | ok
  | err (e : Error)
deriving DecidableEq, Repr

/-! ### Post-frame bookkeeping of `Scheduler::run_jobs` (scheduler.rs:429-446)

`run_jobs` blocks on the frame-result channel.  On an error it returns at
once, before acquiring the entity storage; on `Ok` it drains the
entity-despawn channel, calling `entities.free` per id, then drains the
entity-spawn channel, calling `entities.reserve` per request.  The two
drained channels are modelled by the list of despawned ids and the number of
spawn requests. -/

def runJobs (frameResult : FrameResult) (entities : IdStorage)
    (despawnedEntities : List VIdx) (spawnedCount : Nat) :
    FrameResult × IdStorage :=
  match frameResult with
  | .err e => (.err e, entities)
  | .ok =>
    (.ok, IdStorage.reserveN
      (despawnedEntities.foldl IdStorage.free entities) spawnedCount)

/-! ### IdMappedResourceStorage (src/src/resource.rs:59-331; the same code
appears verbatim in src/core/src/resource/id_mapped_storage.rs:9-288)

The `MaybeUninit<R>` dense slots are modelled as `Option R`: a slot holds
`some v` exactly when it was written and not moved out; `assume_init_read`
of a slot is modelled as `List.getD … none` (reading an uninitialized slot —
undefined behaviour in the source — yields `none` in the model). -/

structure IdMappedResourceStorage (R : Type) where
  resources : List (Option R)
  forward_array : List VIdx
  reverse_array : List VIdx
  free_list_head : Nat
deriving DecidableEq, Repr

namespace IdMappedResourceStorage

variable {R : Type}

/-- `const FREE_LIST_END: usize = Id::MAX_VERSION` (resource.rs:146).
Note: this is `MAX_VERSION` (= 255 for the 8-version-bit ids used
throughout), although the layout comment in the source (resource.rs:83)
says the end of the free list is marked by `0xffffffff`, and the sibling
`IdStorage` uses `Id::MAX_INDEX`.  The collision of this sentinel with the
valid dense position 255 is the subject of claim C1. -/
def FREE_LIST_END : Nat := MAX_VERSION

/-- `IdMappedResourceStorage::new` (resource.rs:149-182), stripped of the
GPU buffer creation (graphics is outside the modelled core). -/
def new : IdMappedResourceStorage R := ⟨[], [], [], FREE_LIST_END⟩

/-- `IdMappedResourceStorage::insert` (resource.rs:184-213).  Returns the
updated storage and the previous value (`None` when the id was absent). -/
def insert (s : IdMappedResourceStorage R) (id : VIdx) (resource : R) :
    IdMappedResourceStorage R × Option R :=
  let reverse_array :=
    if s.reverse_array.length ≤ id.index then
      s.reverse_array ++
        List.replicate (id.index + 1 - s.reverse_array.length) ⟨0, 0⟩
    else s.reverse_array
  let reverse_ref := reverse_array.getD id.index VIdx.zero
  if reverse_ref.version = 0 then
    if s.free_list_head = FREE_LIST_END then
      (⟨s.resources ++ [some resource],
        s.forward_array ++ [id],
        reverse_array.set id.index ⟨s.forward_array.length, 1⟩,
        s.free_list_head⟩, none)
    else
      let insert_index := s.free_list_head
      (⟨s.resources.set insert_index (some resource),
        s.forward_array.set insert_index id,
        reverse_array.set id.index ⟨insert_index, 1⟩,
        (s.forward_array.getD insert_index VIdx.zero).index⟩, none)
  else
    let forward_index := reverse_ref.index
    (⟨s.resources.set forward_index (some resource),
      s.forward_array, reverse_array, s.free_list_head⟩,
      s.resources.getD forward_index none)

/-- `IdMappedResourceStorage::remove` (resource.rs:215-230). -/
def remove (s : IdMappedResourceStorage R) (id : VIdx) :
    IdMappedResourceStorage R × Option R :=
  if s.reverse_array.length ≤ id.index then (s, none)
  else
    let reverse_ref := s.reverse_array.getD id.index VIdx.zero
    if reverse_ref.version = 0 then (s, none)
    else
      let index := reverse_ref.index
      (⟨s.resources.set index none,
        s.forward_array.set index ⟨s.free_list_head, 0⟩,
        s.reverse_array.set id.index ⟨reverse_ref.index, 0⟩,
        index⟩, s.resources.getD index none)

/-- `IdMappedResourceStorage::get` (resource.rs:232-243). -/
def get (s : IdMappedResourceStorage R) (id : VIdx) : Option R :=
  if id.index < s.reverse_array.length then
    let reverse := s.reverse_array.getD id.index VIdx.zero
    if reverse.version = 1 then s.resources.getD reverse.index none else none
  else none

/-- The iterator (resource.rs:281-331): starting at dense position `i`,
`increment_to_valid_index` advances to the next position whose forward entry
has `index == position`; `next` yields `(forward[i], resources[i])`.  The
fuel argument bounds the recursion; `iterList` supplies enough. -/
def iterAux (forward : List VIdx) (resources : List (Option R)) :
    Nat → Nat → List (VIdx × Option R)
  | 0, _ => []
  | fuel + 1, i =>
    if i < forward.length then
      if (forward.getD i VIdx.zero).index = i then
        (forward.getD i VIdx.zero, resources.getD i none)
          :: iterAux forward resources fuel (i + 1)
      else iterAux forward resources fuel (i + 1)
    else []

/-- The full sequence produced by `iter()`. -/
def iterList (s : IdMappedResourceStorage R) : List (VIdx × Option R) :=
  iterAux s.forward_array s.resources s.forward_array.length 0

/-- Basic well-formedness used for the functional-correctness claims: the
dense arrays run in parallel (asserted by the source, resource.rs:194), the
free-list head is the sentinel or in range, and every reverse entry has a
0/1 present bit which, when set, points into the dense array at an
initialized slot (the `MaybeUninit` discipline the unsafe reads rely on). -/
def wfr (s : IdMappedResourceStorage R) : Bool :=
  (s.forward_array.length == s.resources.length) &&
    ((s.free_list_head == FREE_LIST_END) ||
      decide (s.free_list_head < s.forward_array.length)) &&
    (List.range s.reverse_array.length).all fun i =>
      let r := s.reverse_array.getD i VIdx.zero
      decide (r.version ≤ 1) &&
        ((r.version == 0) ||
          (decide (r.index < s.resources.length) &&
            (s.resources.getD r.index none).isSome))

/-- The free dense positions as a chain followed from `free_list_head`
through the index fields of `forward_array`, ending at the sentinel
(resource.rs:80-84).  Fuel-bounded walk. -/
def freeChainFrom (forward : List VIdx) : Nat → Nat → Option (List Nat)
  | head, 0 => if head = FREE_LIST_END then some [] else none
  | head, n + 1 =>
    if head = FREE_LIST_END then some []
    else if head < forward.length then
      (freeChainFrom forward ((forward.getD head VIdx.zero).index) n).map
        (head :: ·)
    else none

def denseFreeChain (s : IdMappedResourceStorage R) : Option (List Nat) :=
  freeChainFrom s.forward_array s.free_list_head (s.forward_array.length + 1)

/-- Number of live entries: reverse entries whose present bit is set. -/
def liveCount (s : IdMappedResourceStorage R) : Nat :=
  s.reverse_array.countP fun r => r.version == 1

/-- Invariant 3 of the claim: the free dense positions form a chain from
`free_list_head` to the sentinel whose length plus the live count equals the
dense array length. -/
def freeChainInvariant (s : IdMappedResourceStorage R) : Prop :=
  ∃ l, denseFreeChain s = some l ∧
    l.length + liveCount s = s.forward_array.length

/-- A reverse entry pointing at a dense slot: the shape shared by all states
in which `id` is present. -/
def livePointer (s : IdMappedResourceStorage R) (id : VIdx) (k : Nat) : Prop :=
  id.index < s.reverse_array.length ∧
    s.reverse_array.getD id.index VIdx.zero = ⟨k, 1⟩ ∧
    k < s.resources.length

end IdMappedResourceStorage

/-- Inserting ids with indices `0 .. n-1` (version 0, value = index) into a
fresh storage, in order. -/
def insertRangeState (n : Nat) : IdMappedResourceStorage Nat :=
  (List.range n).foldl (fun s i => (s.insert ⟨i, 0⟩ i).1)
    IdMappedResourceStorage.new

/-- The C1 counterexample state: insert 256 entries (ids with indices
0..255, version 0, value = index), then remove the entry of id 255 — the
freed dense position 255 coincides with the free-list sentinel
`Id::MAX_VERSION`. -/
def c1State : IdMappedResourceStorage Nat :=
  ((insertRangeState 256).remove ⟨255, 0⟩).1

/-! ### Scheduler (src/src/scheduler.rs)

The per-job state (scheduler.rs:104-112), the ready-queue entries
(scheduler.rs:114-117) and the shared scheduler state.  The mpsc
frame-result channel is a FIFO list (send appends, recv pops the front);
the worker pool's interleaving is not modelled — each completion event
(the body a worker runs after a job function returns, scheduler.rs:259-305)
is a state transformation, atomic in the source by virtue of the fetch_add
read-modify-writes and the queue mutex. -/

structure JobState where
  regular_dependency_count : Nat
  per_viewport_dependency_count : Nat
  dependencies_finished : Nat
  required_for : List Nat
  executed_per_viewport : Bool
deriving DecidableEq, Repr

/-- The value `jobs.getD` yields beyond the job vector; never read when the
indices are in range. -/
def jdefault : JobState := ⟨0, 0, 0, [], false⟩

/-- A job's counter after one predecessor-completion increment. -/
def JobState.bump (j : JobState) : JobState :=
  { j with dependencies_finished := j.dependencies_finished + 1 }

structure ScheduledJob where
  job_index : Nat
  viewport_id : Option VIdx
deriving DecidableEq, Repr

structure SchedulerState where
  jobs : List JobState
  available_jobs : List ScheduledJob
  jobs_finished : Nat
  viewports : List VIdx
  frame_channel : List FrameResult
  regular_job_count : Nat
  per_viewport_job_count : Nat
deriving DecidableEq, Repr

namespace SchedulerState

/-- `regular_job_count + per_viewport_job_count * viewports.len()`
(scheduler.rs:266-269). -/
def expectedJobTotal (s : SchedulerState) : Nat :=
  s.regular_job_count + s.per_viewport_job_count * s.viewports.length

/-- The saturation threshold of a dependent job
(scheduler.rs:279-282): `regular_dependency_count +
per_viewport_dependency_count * viewports.len()`. -/
def jobSaturation (s : SchedulerState) (j : JobState) : Nat :=
  j.regular_dependency_count +
    j.per_viewport_dependency_count * s.viewports.length

/-- What gets pushed for a saturated dependent (scheduler.rs:284-301):
once per viewport when per-viewport, once with no viewport otherwise. -/
def dependentPushes (s : SchedulerState) (dep : Nat) : List ScheduledJob :=
  if (s.jobs.getD dep jdefault).executed_per_viewport then
    s.viewports.map (fun vp => ⟨dep, some vp⟩)
  else [⟨dep, none⟩]

/-- One iteration of the successor loop (scheduler.rs:274-303): increment
the dependent's `dependencies_finished` (the source compares the fetched
old value with `saturation - 1`, i.e. the new value with the saturation)
and enqueue it when the saturation threshold is reached.  The threshold and
the per-viewport flag are read from the `dependent_job` reference obtained
before the increment, as in the source; the increment touches neither. -/
def finishStep (s : SchedulerState) (dep : Nat) : SchedulerState :=
  let depJob := s.jobs.getD dep jdefault
  let newCount := depJob.dependencies_finished + 1
  let jobs1 := s.jobs.set dep { depJob with dependencies_finished := newCount }
  if newCount = jobSaturation s depJob then
    { s with jobs := jobs1,
             available_jobs := s.available_jobs ++ dependentPushes s dep }
  else { s with jobs := jobs1 }

/-- The whole successor loop of a completed job. -/
def processSuccessors (s : SchedulerState) (succs : List Nat) : SchedulerState :=
  succs.foldl finishStep s

/-- A worker completing job `job_index` successfully
(scheduler.rs:263-305): bump `jobs_finished`; if every job of the frame has
finished, publish `Ok` on the frame-result channel, otherwise run the
successor loop. -/
def finishJobSuccess (s : SchedulerState) (job_index : Nat) : SchedulerState :=
  let s1 := { s with jobs_finished := s.jobs_finished + 1 }
  if s1.jobs_finished = expectedJobTotal s1 then
    { s1 with frame_channel := s1.frame_channel ++ [FrameResult.ok] }
  else
    processSuccessors s1 (s.jobs.getD job_index jdefault).required_for

/-- A worker whose job function returned an error (scheduler.rs:259-262):
the error is sent on the frame-result channel immediately. -/
def finishJobError (s : SchedulerState) (e : Error) : SchedulerState :=
  { s with frame_channel := s.frame_channel ++ [FrameResult.err e] }

/-- The per-frame reset at the top of `run_jobs` (scheduler.rs:394-399). -/
def resetFrame (s : SchedulerState) : SchedulerState :=
  { s with jobs_finished := 0,
           jobs := s.jobs.map fun j => { j with dependencies_finished := 0 } }

/-- `frame_finished_receiver.recv()` (scheduler.rs:429): pops the oldest
message still in the channel; `none` models blocking on an empty channel. -/
def recvFrameResult (s : SchedulerState) :
    Option FrameResult × SchedulerState :=
  match s.frame_channel with
  | [] => (none, s)
  | m :: rest => (some m, { s with frame_channel := rest })

/-- What gets enqueued for dependent `k` of a completing job, the claim's
rule: pushed exactly when the incremented counter reaches
`regular + per_viewport * viewport_count` (never before), once per
viewport when per-viewport, once otherwise. -/
def claimPushes (s : SchedulerState) (k : Nat) : List ScheduledJob :=
  if (s.jobs.getD k jdefault).dependencies_finished + 1
      = jobSaturation s (s.jobs.getD k jdefault) then
    if (s.jobs.getD k jdefault).executed_per_viewport then
      s.viewports.map (fun vp => (⟨k, some vp⟩ : ScheduledJob))
    else [⟨k, none⟩]
  else []

/-- `claimPushes` accumulated over a successor list. -/
def concatMapPushes (s : SchedulerState) : List Nat → List ScheduledJob
  | [] => []
  | k :: rest => claimPushes s k ++ concatMapPushes s rest

end SchedulerState

/-- The C3 witness configuration: two per-frame jobs, job 1 depending on
job 0, no viewports. -/
def c3Sched : SchedulerState :=
  ⟨[⟨0, 0, 0, [1], false⟩, ⟨1, 0, 0, [], false⟩], [], 0, [], [], 2, 0⟩

/-- The C5 configuration: two independent per-frame jobs, no viewports. -/
def c5Sched : SchedulerState :=
  ⟨[⟨0, 0, 0, [], false⟩, ⟨0, 0, 0, [], false⟩], [], 0, [], [], 2, 0⟩

def c5e1 : Error := ⟨"job A failed", SourceLocation.textFile "a.rs" 1⟩

def c5e2 : Error := ⟨"job B failed", SourceLocation.textFile "b.rs" 2⟩

/-! ### Scene resource lookup (src/core/src/scene.rs:258-263) -/

/-- `make_resource_storages` (core resource/mod.rs:109-125): one slot per
registered resource id, the vector grown on demand with `None` filler.  A
storage instance is modelled as `Unit`. -/
def make_resource_storages (registered : List VIdx) : List (Option Unit) :=
  registered.foldl
    (fun vec id =>
      (if vec.length ≤ id.index then
        vec ++ List.replicate (id.index + 1 - vec.length) none
      else vec).set id.index (some ()))
    []

namespace Scene

/-- `Scene::resource_storage` (core scene.rs:258-263):
`self.state.resources[resource_id.index()].as_ref()`.  Rust `Vec` indexing
panics when `index(id)` is out of bounds; the outer `Option` models that
panic (`none` = index-out-of-bounds panic), the inner one is the
`Option<&RwLock<ResourceStorage>>` of the source. -/
def resource_storage (resources : List (Option Unit)) (resource_id : VIdx) :
    Option (Option Unit) :=
  if resource_id.index < resources.length then
    some (resources.getD resource_id.index none)
  else none

end Scene

/-! ### Scene JSON ingestion (src/core/src/scene.rs:298-330) -/

/-- A JSON value, as far as `from_json` inspects it. -/
inductive Json where
  | null
  | bool (b : Bool)
  | num (n : Int)
  | str (s : String)
  | arr (items : List Json)
  | obj (fields : List (String × Json))

/-- Object-field lookup: first field with a matching key. -/
def lookupField : List (String × Json) → String → Option Json
  | [], _ => none
  | (k, v) :: rest, key => if k = key then some v else lookupField rest key

/-- `serde_json::Value::get` on the modelled values. -/
def getField : Json → String → Option Json
  | .obj fields, key => lookupField fields key
  | _, _ => none

/-- `as_array`. -/
def asArray : Json → Option (List Json)
  | .arr items => some items
  | _ => none

/-- `as_object`. -/
def asObject : Json → Option (List (String × Json))
  | .obj fields => some fields
  | _ => none

/-- `SourceLocation::here()` captured at core scene.rs:317. -/
def sceneLocInvalidComponent : SourceLocation :=
  SourceLocation.textFile "core/src/scene.rs" 317

/-- `SourceLocation::here()` captured at core scene.rs:321. -/
def sceneLocMissingComponents : SourceLocation :=
  SourceLocation.textFile "core/src/scene.rs" 321

/-- `SourceLocation::here()` captured at core scene.rs:325. -/
def sceneLocNoEntities : SourceLocation :=
  SourceLocation.textFile "core/src/scene.rs" 325

/-- `resource_id_from_label` (core resource/mod.rs:85-94): the first
registered resource with the label, ids being issued in registration
order. -/
def resource_id_from_label (registry : List String) (label : String) :
    Option VIdx :=
  (registry.findIdx? (· == label)).map (fun i => (⟨i, 0⟩ : VIdx))

/-- The component loop of `from_json` (core scene.rs:308-319): for each
`(label, value)` pair, look the label up; a registered label's value is
deserialized into the storage (deserialization success is assumed — the
source unwraps it, which is outside this claim), an unknown label aborts
with `invalid entity component: {label}`. -/
def processComponents (registry : List String) :
    List (String × Json) → Except Error Unit
  | [] => .ok ()
  | (label, _) :: rest =>
    match resource_id_from_label registry label with
    | some _ => processComponents registry rest
    | none =>
      .error ⟨"invalid entity component: " ++ label, sceneLocInvalidComponent⟩

/-- The entity loop of `from_json` (core scene.rs:304-323): reserve an
entity id, then require a `components` object and process it. -/
def processEntities (registry : List String) :
    List Json → IdStorage → Except Error IdStorage
  | [], entities => .ok entities
  | e :: rest, entities =>
    let entities := (entities.reserve).1
    match (getField e "components").bind asObject with
    | none =>
      .error ⟨"components field not found", sceneLocMissingComponents⟩
    | some comps =>
      match processComponents registry comps with
      | .ok _ => processEntities registry rest entities
      | .error err => .error err

/-- `Scene::from_json` (core scene.rs:298-330), reduced to the entity
storage it populates: requires an `entities` array. -/
def from_json (registry : List String) (j : Json) : Except Error IdStorage :=
  match (getField j "entities").bind asArray with
  | some entities => processEntities registry entities IdStorage.new
  | none => .error ⟨"no entities found in scene JSON", sceneLocNoEntities⟩


/-! ## Theorems -/

/-! ### List helper lemmas (getD over set / append) -/

theorem getD_nil {α : Type _} (i : Nat) (d : α) : ([] : List α).getD i d = d := by
  cases i <;> rfl

theorem getD_cons_zero {α : Type _} (a : α) (l : List α) (d : α) :
    (a :: l).getD 0 d = a := rfl

theorem getD_cons_succ {α : Type _} (a : α) (l : List α) (i : Nat) (d : α) :
    (a :: l).getD (i + 1) d = l.getD i d := rfl

theorem getD_set_self {α : Type _} (l : List α) (i : Nat) (v d : α)
    (h : i < l.length) : (l.set i v).getD i d = v := by
  induction l generalizing i with
  | nil => simp at h
  | cons a t ih =>
    cases i with
    | zero => rfl
    | succ j =>
      have hj : j < t.length := by simpa using h
      simpa [List.set, getD_cons_succ] using ih j hj

theorem getD_set_ne {α : Type _} (l : List α) (i j : Nat) (v d : α)
    (h : i ≠ j) : (l.set i v).getD j d = l.getD j d := by
  induction l generalizing i j with
  | nil => rfl
  | cons a t ih =>
    cases i with
    | zero =>
      cases j with
      | zero => exact absurd rfl h
      | succ k => rfl
    | succ i' =>
      cases j with
      | zero => rfl
      | succ k =>
        have hik : i' ≠ k := fun hh => h (by simp [hh])
        simpa [List.set, getD_cons_succ] using ih i' k hik

theorem getD_append_left {α : Type _} (l l' : List α) (i : Nat) (d : α)
    (h : i < l.length) : (l ++ l').getD i d = l.getD i d := by
  induction l generalizing i with
  | nil => simp at h
  | cons a t ih =>
    cases i with
    | zero => rfl
    | succ j =>
      have hj : j < t.length := by simpa using h
      simpa [getD_cons_succ] using ih j hj

theorem getD_append_len {α : Type _} (l : List α) (x : α) (d : α) :
    (l ++ [x]).getD l.length d = x := by
  induction l with
  | nil => rfl
  | cons a t ih => simp [getD_cons_succ, ih]

theorem getD_lt_of_ge {α : Type _} (l : List α) (i : Nat) (d : α)
    (h : l.length ≤ i) : l.getD i d = d := by
  induction l generalizing i with
  | nil => exact getD_nil i d
  | cons a t ih =>
    cases i with
    | zero => simp at h
    | succ j =>
      have : t.length ≤ j := by simpa using h
      simpa [getD_cons_succ] using ih j this

namespace IdStorage

theorem wf_iff (s : IdStorage) :
    wf s = true ↔
      s.ids.length ≤ MAX_INDEX ∧ ∃ l, freeChain s = some l ∧ l.Nodup := by
  unfold wf
  cases h : freeChain s with
  | none => simp [h]
  | some l =>
    simp only [h, Bool.and_eq_true, decide_eq_true_eq]
    constructor
    · rintro ⟨h1, h2⟩; exact ⟨h1, l, rfl, h2⟩
    · rintro ⟨h1, l', hl', h2⟩
      cases Option.some.inj hl'
      exact ⟨h1, h2⟩

theorem chainNodes_zero_struct {ids : List VIdx} {h : Nat} {l : List Nat}
    (hc : chainNodes ids h 0 = some l) : h = FREE_LIST_END ∧ l = [] := by
  unfold chainNodes at hc
  split at hc
  · cases hc
    exact ⟨by assumption, rfl⟩
  · exact absurd hc (by simp)

theorem chainNodes_succ_struct {ids : List VIdx} {h m : Nat} {l : List Nat}
    (hc : chainNodes ids h (m + 1) = some l) :
    ∃ l', l = h :: l' ∧ h < ids.length ∧
      chainNodes ids (ids.getD h VIdx.zero).index m = some l' := by
  unfold chainNodes at hc
  split at hc
  · cases hr : chainNodes ids (ids.getD h VIdx.zero).index m with
    | none =>
      rw [hr] at hc
      exact absurd hc (by simp)
    | some l' =>
      rw [hr] at hc
      cases hc
      exact ⟨l', rfl, by assumption, rfl⟩
  · exact absurd hc (by simp)

theorem chainNodes_length {ids : List VIdx} {h n : Nat} {l : List Nat}
    (hc : chainNodes ids h n = some l) : l.length = n := by
  induction n generalizing h l with
  | zero =>
    rw [(chainNodes_zero_struct hc).2]
    rfl
  | succ m ih =>
    obtain ⟨l', rfl, _, hr⟩ := chainNodes_succ_struct hc
    simp [ih hr]

theorem chainNodes_mem_lt {ids : List VIdx} {h n : Nat} {l : List Nat}
    (hc : chainNodes ids h n = some l) : ∀ i ∈ l, i < ids.length := by
  induction n generalizing h l with
  | zero =>
    rw [(chainNodes_zero_struct hc).2]
    intro i hi
    exact absurd hi (List.not_mem_nil i)
  | succ m ih =>
    obtain ⟨l', rfl, hh, hr⟩ := chainNodes_succ_struct hc
    intro i hi
    rcases List.mem_cons.mp hi with rfl | hi
    · exact hh
    · exact ih hr i hi

/-- Every slot on a nodup free chain stores an index field different from its
own position: free slots never look live to `contains`. -/
theorem chainNodes_not_self {ids : List VIdx} {h n : Nat} {l : List Nat}
    (hc : chainNodes ids h n = some l) (hnd : l.Nodup)
    (hlen : ids.length ≤ MAX_INDEX) :
    ∀ i ∈ l, (ids.getD i VIdx.zero).index ≠ i := by
  induction n generalizing h l with
  | zero =>
    rw [(chainNodes_zero_struct hc).2]
    intro i hi
    exact absurd hi (List.not_mem_nil i)
  | succ m ih =>
    obtain ⟨l', rfl, hh, hr⟩ := chainNodes_succ_struct hc
    have hnd' : l'.Nodup := (List.nodup_cons.mp hnd).2
    have hnotmem : h ∉ l' := (List.nodup_cons.mp hnd).1
    intro i hi
    rcases List.mem_cons.mp hi with rfl | hi
    · -- the head slot's stored index is the next chain node (or the sentinel)
      cases m with
      | zero =>
        rw [(chainNodes_zero_struct hr).1]
        have hlt : i < MAX_INDEX := lt_of_lt_of_le hh hlen
        exact fun hq => absurd hq.symm (Nat.ne_of_lt hlt)
      | succ k =>
        obtain ⟨l'', hl'', hlt, _⟩ := chainNodes_succ_struct hr
        intro hq
        rw [hq] at hr
        obtain ⟨l3, hl3, _, _⟩ := chainNodes_succ_struct hr
        exact hnotmem (hl3 ▸ List.mem_cons_self i l3)
    · exact ih hr hnd' i hi

theorem chainNodes_append {ids : List VIdx} {h n : Nat} {l : List Nat}
    (x : VIdx) (hc : chainNodes ids h n = some l) :
    chainNodes (ids ++ [x]) h n = some l := by
  induction n generalizing h l with
  | zero =>
    obtain ⟨rfl, rfl⟩ := chainNodes_zero_struct hc
    unfold chainNodes
    simp
  | succ m ih =>
    obtain ⟨l', rfl, hh, hr⟩ := chainNodes_succ_struct hc
    unfold chainNodes
    have hh' : h < (ids ++ [x]).length := by
      simp only [List.length_append, List.length_singleton]
      omega
    simp only [hh', if_pos]
    rw [getD_append_left _ _ _ _ hh]
    rw [ih hr]
    rfl

theorem chainNodes_set {ids : List VIdx} {h n : Nat} {l : List Nat}
    {j : Nat} (v : VIdx) (hc : chainNodes ids h n = some l) (hj : j ∉ l) :
    chainNodes (ids.set j v) h n = some l := by
  induction n generalizing h l with
  | zero =>
    obtain ⟨rfl, rfl⟩ := chainNodes_zero_struct hc
    unfold chainNodes
    simp
  | succ m ih =>
    obtain ⟨l', rfl, hh, hr⟩ := chainNodes_succ_struct hc
    have hjh : j ≠ h := fun hq => hj (hq ▸ List.mem_cons_self h l')
    have hjl' : j ∉ l' := fun hq => hj (List.mem_cons_of_mem h hq)
    unfold chainNodes
    have hh' : h < (ids.set j v).length := by simpa using hh
    simp only [hh', if_pos]
    rw [getD_set_ne _ _ _ _ _ hjh]
    rw [ih hr hjl']
    rfl

theorem nodup_length_le {l : List Nat} {n : Nat} (hnd : l.Nodup)
    (hmem : ∀ i ∈ l, i < n) : l.length ≤ n := by
  have h1 : l.toFinset.card = l.length := List.toFinset_card_of_nodup hnd
  have h2 : l.toFinset ⊆ Finset.range n := by
    intro i hi
    exact Finset.mem_range.mpr (hmem i (List.mem_toFinset.mp hi))
  have := Finset.card_le_card h2
  rw [h1, Finset.card_range] at this
  exact this

theorem size_le_of_chain {s : IdStorage} {l : List Nat}
    (hc : freeChain s = some l) (hnd : l.Nodup) :
    s.free_list_size ≤ s.ids.length := by
  have h1 : l.length = s.free_list_size := chainNodes_length hc
  have h2 : ∀ i ∈ l, i < s.ids.length := chainNodes_mem_lt hc
  have := nodup_length_le hnd h2
  omega

theorem contains_dest {s : IdStorage} {id : VIdx}
    (hc : s.contains id = true) :
    id.index < s.ids.length ∧ s.ids.getD id.index VIdx.zero = id := by
  unfold contains at hc
  have h := Bool.and_eq_true_iff.mp hc
  exact ⟨of_decide_eq_true h.1, beq_iff_eq.mp h.2⟩

theorem contains_intro {s : IdStorage} {id : VIdx}
    (h1 : id.index < s.ids.length) (h2 : s.ids.getD id.index VIdx.zero = id) :
    s.contains id = true := by
  unfold contains
  rw [Bool.and_eq_true_iff]
  exact ⟨decide_eq_true h1, beq_iff_eq.mpr h2⟩

/-- Two ids contained in the same storage with the same index coincide:
slot `index(id)` stores exactly one id. -/
theorem contains_inj {s : IdStorage} {a b : VIdx}
    (ha : s.contains a = true) (hb : s.contains b = true)
    (hab : a.index = b.index) : a = b := by
  have h1 := (contains_dest ha).2
  have h2 := (contains_dest hb).2
  rw [hab] at h1
  rw [h1] at h2
  exact h2

/-- A chain slot cannot be contained: the free chain marks slots dead. -/
theorem free_head_ne_of_contains {s : IdStorage} {l : List Nat} {id : VIdx}
    (hlen : s.ids.length ≤ MAX_INDEX)
    (hc : freeChain s = some l) (hnd : l.Nodup)
    (hcont : s.contains id = true) : id.index ∉ l := by
  intro hmem
  have hne := chainNodes_not_self hc hnd hlen id.index hmem
  have heq := (contains_dest hcont).2
  exact hne (by rw [heq])

/-- `reserve` on an empty free list grows the slot vector
(id_storage.rs:38-42). -/
theorem reserve_eq_fresh (s : IdStorage) (hE : s.free_list_head = FREE_LIST_END) :
    s.reserve = (⟨s.ids ++ [⟨s.ids.length, 0⟩], s.free_list_head, s.free_list_size⟩,
      ⟨s.ids.length, 0⟩) := by
  unfold reserve
  rw [hE]
  simp [VIdx.fromIndex]

/-- `reserve` on a nonempty free list pops the head slot and bumps its stored
version (id_storage.rs:28-37). -/
theorem reserve_eq_pop (s : IdStorage) (hne : s.free_list_head ≠ FREE_LIST_END) :
    s.reserve =
      (⟨s.ids.set s.free_list_head
          ⟨s.free_list_head,
            ((s.ids.getD s.free_list_head VIdx.zero).version + 1) % NUM_VERSIONS⟩,
        (s.ids.getD s.free_list_head VIdx.zero).index, s.free_list_size - 1⟩,
      ⟨s.free_list_head,
        ((s.ids.getD s.free_list_head VIdx.zero).version + 1) % NUM_VERSIONS⟩) := by
  unfold reserve
  simp [hne, VIdx.nextVersionId]

/-- When the free list is nonempty and the storage is well formed, extract the
shape of its chain. -/
theorem pop_struct {s : IdStorage} {l : List Nat}
    (hc : freeChain s = some l) (hE : s.free_list_head ≠ FREE_LIST_END) :
    ∃ m l', s.free_list_size = m + 1 ∧ l = s.free_list_head :: l' ∧
      s.free_list_head < s.ids.length ∧
      chainNodes s.ids (s.ids.getD s.free_list_head VIdx.zero).index m = some l' := by
  unfold freeChain at hc
  cases hsz : s.free_list_size with
  | zero =>
    rw [hsz] at hc
    exact absurd (chainNodes_zero_struct hc).1 hE
  | succ m =>
    rw [hsz] at hc
    obtain ⟨l', hl, hh, hr⟩ := chainNodes_succ_struct hc
    exact ⟨m, l', rfl, hl, hh, hr⟩

theorem reserve_wf {s : IdStorage} (hwf : wf s = true)
    (hcap : s.ids.length < MAX_INDEX) : wf (s.reserve).1 = true := by
  obtain ⟨hlen, l, hc, hnd⟩ := (wf_iff s).mp hwf
  by_cases hE : s.free_list_head = FREE_LIST_END
  · rw [reserve_eq_fresh s hE]
    rw [wf_iff]
    refine ⟨by simp; omega, l, ?_, hnd⟩
    unfold freeChain at hc ⊢
    exact chainNodes_append _ hc
  · obtain ⟨m, l', hsz, hl, hh, hr⟩ := pop_struct hc hE
    subst hl
    have hnotmem : s.free_list_head ∉ l' := (List.nodup_cons.mp hnd).1
    rw [reserve_eq_pop s hE]
    rw [wf_iff]
    refine ⟨by simpa using hlen, l', ?_, (List.nodup_cons.mp hnd).2⟩
    unfold freeChain
    simp only [hsz, Nat.succ_sub_one]
    exact chainNodes_set _ hr hnotmem

theorem reserve_len {s : IdStorage} (hwf : wf s = true) :
    (s.reserve).1.len = s.len + 1 := by
  obtain ⟨hlen, l, hc, hnd⟩ := (wf_iff s).mp hwf
  have hszle := size_le_of_chain hc hnd
  by_cases hE : s.free_list_head = FREE_LIST_END
  · rw [reserve_eq_fresh s hE]
    unfold len
    simp
    omega
  · obtain ⟨m, l', hsz, hl, hh, hr⟩ := pop_struct hc hE
    rw [reserve_eq_pop s hE]
    unfold len
    simp
    omega

theorem reserve_length_le (s : IdStorage) :
    (s.reserve).1.ids.length ≤ s.ids.length + 1 := by
  by_cases hE : s.free_list_head = FREE_LIST_END
  · rw [reserve_eq_fresh s hE]
    simp
  · rw [reserve_eq_pop s hE]
    simp

theorem reserve_contains {s : IdStorage} (hwf : wf s = true) :
    (s.reserve).1.contains (s.reserve).2 = true := by
  obtain ⟨hlen, l, hc, hnd⟩ := (wf_iff s).mp hwf
  by_cases hE : s.free_list_head = FREE_LIST_END
  · rw [reserve_eq_fresh s hE]
    refine contains_intro (by simp) ?_
    exact getD_append_len s.ids _ VIdx.zero
  · obtain ⟨m, l', hsz, hl, hh, hr⟩ := pop_struct hc hE
    rw [reserve_eq_pop s hE]
    refine contains_intro (by simpa using hh) ?_
    exact getD_set_self _ _ _ _ hh

theorem free_length (s : IdStorage) (id : VIdx) :
    (s.free id).ids.length = s.ids.length := by
  unfold free
  simp

theorem free_wf {s : IdStorage} {id : VIdx} (hwf : wf s = true)
    (hcont : s.contains id = true) : wf (s.free id) = true := by
  obtain ⟨hlen, l, hc, hnd⟩ := (wf_iff s).mp hwf
  obtain ⟨hidx, hslot⟩ := contains_dest hcont
  have hnotmem : id.index ∉ l := free_head_ne_of_contains hlen hc hnd hcont
  rw [wf_iff]
  refine ⟨by rw [free_length]; exact hlen, id.index :: l, ?_,
    List.nodup_cons.mpr ⟨hnotmem, hnd⟩⟩
  unfold freeChain free
  simp only
  unfold chainNodes
  have hidx' : id.index < (s.ids.set id.index ⟨s.free_list_head, id.version⟩).length := by
    simpa using hidx
  simp only [hidx', if_pos]
  rw [getD_set_self _ _ _ _ hidx]
  simp only
  unfold freeChain at hc
  rw [chainNodes_set _ hc hnotmem]
  rfl

theorem free_len {s : IdStorage} {id : VIdx} (hwf : wf s = true)
    (hcont : s.contains id = true) : (s.free id).len + 1 = s.len := by
  obtain ⟨hlen, l, hc, hnd⟩ := (wf_iff s).mp hwf
  obtain ⟨hidx, hslot⟩ := contains_dest hcont
  have hnotmem : id.index ∉ l := free_head_ne_of_contains hlen hc hnd hcont
  have hchainlen : l.length = s.free_list_size := chainNodes_length hc
  have hmem : ∀ i ∈ id.index :: l, i < s.ids.length := by
    intro i hi
    rcases List.mem_cons.mp hi with rfl | hi
    · exact hidx
    · exact chainNodes_mem_lt hc i hi
  have hbound := nodup_length_le (List.nodup_cons.mpr ⟨hnotmem, hnd⟩) hmem
  unfold free len
  simp at hbound ⊢
  omega

theorem free_contains_self {s : IdStorage} {id : VIdx} (hwf : wf s = true)
    (hcont : s.contains id = true) : (s.free id).contains id = false := by
  obtain ⟨hlen, l, hc, hnd⟩ := (wf_iff s).mp hwf
  obtain ⟨hidx, hslot⟩ := contains_dest hcont
  have hnotmem : id.index ∉ l := free_head_ne_of_contains hlen hc hnd hcont
  have hslotval : (s.free id).ids.getD id.index VIdx.zero
      = ⟨s.free_list_head, id.version⟩ := by
    unfold free
    exact getD_set_self _ _ _ _ hidx
  have hne : s.free_list_head ≠ id.index := by
    by_cases hE : s.free_list_head = FREE_LIST_END
    · rw [hE]
      unfold FREE_LIST_END
      omega
    · obtain ⟨m, l', hsz, hl, hh, hr⟩ := pop_struct hc hE
      intro hq
      rw [hq] at hl
      exact hnotmem (hl ▸ List.mem_cons_self id.index l')
  unfold contains
  rw [hslotval]
  have hbeq : (VIdx.mk s.free_list_head id.version == id) = false := by
    rw [beq_eq_false_iff_ne]
    intro hq
    exact hne (by rw [← hq])
  rw [hbeq]
  simp

theorem free_contains_other (s : IdStorage) (id id' : VIdx)
    (hne : id'.index ≠ id.index) :
    (s.free id).contains id' = s.contains id' := by
  unfold contains free
  simp only [List.length_set]
  rw [getD_set_ne _ _ _ _ _ (fun hq => hne hq.symm)]

end IdStorage

namespace IdStorage

theorem reserveN_props : ∀ (n : Nat) (s : IdStorage), wf s = true →
    s.ids.length + n ≤ MAX_INDEX →
    wf (reserveN s n) = true ∧ (reserveN s n).len = s.len + n := by
  intro n
  induction n with
  | zero => intro s hwf _; exact ⟨hwf, rfl⟩
  | succ m ih =>
    intro s hwf hcap
    have hcap1 : s.ids.length < MAX_INDEX := by omega
    have hwf1 : wf (s.reserve).1 = true := reserve_wf hwf hcap1
    have hlen1 : (s.reserve).1.ids.length ≤ s.ids.length + 1 := reserve_length_le s
    have hcap2 : (s.reserve).1.ids.length + m ≤ MAX_INDEX := by omega
    obtain ⟨h1, h2⟩ := ih (s.reserve).1 hwf1 hcap2
    refine ⟨h1, ?_⟩
    show (reserveN (s.reserve).1 m).len = s.len + (m + 1)
    rw [h2, reserve_len hwf]
    omega

theorem freeFold_contains_congr : ∀ (t : List VIdx) (s : IdStorage) (id : VIdx),
    (∀ x ∈ t, x.index ≠ id.index) →
    (t.foldl free s).contains id = s.contains id := by
  intro t
  induction t with
  | nil => intro s id _; rfl
  | cons d t ih =>
    intro s id hne
    have h1 : (t.foldl free (s.free d)).contains id = (s.free d).contains id :=
      ih (s.free d) id (fun x hx => hne x (List.mem_cons_of_mem d hx))
    have h2 : (s.free d).contains id = s.contains id := by
      refine free_contains_other s d id ?_
      exact fun hq => (hne d (List.mem_cons_self d t)) hq.symm
    simpa [h2] using h1

theorem freeFold_props : ∀ (ds : List VIdx) (s : IdStorage),
    wf s = true → ds.Pairwise (· ≠ ·) → (∀ id ∈ ds, s.contains id = true) →
    wf (ds.foldl free s) = true ∧
    (ds.foldl free s).len + ds.length = s.len ∧
    (ds.foldl free s).ids.length = s.ids.length ∧
    ∀ id ∈ ds, (ds.foldl free s).contains id = false := by
  intro ds
  induction ds with
  | nil =>
    intro s hwf _ _
    exact ⟨hwf, rfl, rfl, fun id h => absurd h (List.not_mem_nil id)⟩
  | cons d t ih =>
    intro s hwf hpw hcont
    have hcd : s.contains d = true := hcont d (List.mem_cons_self d t)
    have hwf1 : wf (s.free d) = true := free_wf hwf hcd
    have hidxne : ∀ x ∈ t, x.index ≠ d.index := by
      intro x hx hq
      have hcx : s.contains x = true := hcont x (List.mem_cons_of_mem d hx)
      have hxd : x = d := contains_inj hcx hcd hq
      exact (List.pairwise_cons.mp hpw).1 x hx hxd.symm
    have hcont1 : ∀ id ∈ t, (s.free d).contains id = true := by
      intro x hx
      rw [free_contains_other s d x (hidxne x hx)]
      exact hcont x (List.mem_cons_of_mem d hx)
    obtain ⟨h1, h2, h3, h4⟩ := ih (s.free d) hwf1 (List.pairwise_cons.mp hpw).2 hcont1
    have hfl := free_len hwf hcd
    have hflen := free_length s d
    refine ⟨h1, by simp at h2 ⊢; omega, by simp at h3 ⊢; omega, ?_⟩
    intro x hx
    rcases List.mem_cons.mp hx with rfl | hx
    · have := freeFold_contains_congr t (s.free x) x (fun y hy => hidxne y hy)
      rw [List.foldl_cons]
      rw [this]
      exact free_contains_self hwf hcd
    · exact h4 x hx

end IdStorage

set_option maxRecDepth 8000 in
/-- Claim C7: for a well-formed `IdStorage` with spare capacity, after
`reserve` returns `id` and `free(id)`, the next `reserve` returns an id with
the same index and the version incremented modulo `NUM_VERSIONS` (hence a
different id), and after the `free` the storage no longer `contains` the id.
Concretely (spec scenario S1): three reserves from an empty storage yield
indices 0, 1, 2 at version 0; freeing index 1 and reserving again yields
index 1 at version 1 while `contains {i:1,v:0}` is false.  Iterating
reserve-free on the single slot of an empty storage `NUM_VERSIONS` times and
reserving once more reissues the original id `{i:0,v:0}` (version wrap after
`NUM_VERSIONS + 1` reserves of the same slot). -/
theorem id_storage_reserve_free_reserve :
    (∀ s : IdStorage, IdStorage.wf s = true → s.ids.length < MAX_INDEX →
      ((s.reserve.1.free s.reserve.2).reserve.2.index = s.reserve.2.index ∧
       (s.reserve.1.free s.reserve.2).reserve.2.version
          = (s.reserve.2.version + 1) % NUM_VERSIONS ∧
       (s.reserve.1.free s.reserve.2).reserve.2 ≠ s.reserve.2 ∧
       (s.reserve.1.free s.reserve.2).contains s.reserve.2 = false)) ∧
    (IdStorage.new.reserve.2 = ⟨0, 0⟩ ∧
     IdStorage.new.reserve.1.reserve.2 = ⟨1, 0⟩ ∧
     IdStorage.new.reserve.1.reserve.1.reserve.2 = ⟨2, 0⟩ ∧
     (IdStorage.new.reserve.1.reserve.1.reserve.1.free ⟨1, 0⟩).reserve.2 = ⟨1, 1⟩ ∧
     (IdStorage.new.reserve.1.reserve.1.reserve.1.free ⟨1, 0⟩).contains ⟨1, 0⟩
        = false) ∧
    ((IdStorage.cycleReserveFree^[NUM_VERSIONS] IdStorage.new).reserve.2
        = IdStorage.new.reserve.2) := by
  refine ⟨?_, by decide, by decide⟩
  intro s hwf hcap
  have hwf1 : IdStorage.wf s.reserve.1 = true := IdStorage.reserve_wf hwf hcap
  have hc1 : s.reserve.1.contains s.reserve.2 = true := IdStorage.reserve_contains hwf
  obtain ⟨hidx, hslot⟩ := IdStorage.contains_dest hc1
  obtain ⟨hlen1, l1, hc1', hnd1⟩ := (IdStorage.wf_iff s.reserve.1).mp hwf1
  -- the freed storage: head points at the freed slot, which stores the old head
  have hhead : (s.reserve.1.free s.reserve.2).free_list_head = s.reserve.2.index := rfl
  have hstored : (s.reserve.1.free s.reserve.2).ids.getD s.reserve.2.index VIdx.zero
      = ⟨s.reserve.1.free_list_head, s.reserve.2.version⟩ := by
    unfold IdStorage.free
    exact getD_set_self _ _ _ _ hidx
  have hne : (s.reserve.1.free s.reserve.2).free_list_head ≠ IdStorage.FREE_LIST_END := by
    rw [hhead]
    have h1 : s.reserve.2.index < MAX_INDEX := lt_of_lt_of_le hidx hlen1
    unfold IdStorage.FREE_LIST_END
    omega
  have hkey := IdStorage.reserve_eq_pop (s.reserve.1.free s.reserve.2) hne
  rw [hhead, hstored] at hkey
  refine ⟨by rw [hkey], by rw [hkey], ?_, IdStorage.free_contains_self hwf1 hc1⟩
  intro hq
  rw [hkey] at hq
  have hv : (s.reserve.2.version + 1) % NUM_VERSIONS = s.reserve.2.version :=
    congrArg VIdx.version hq
  have h256 : NUM_VERSIONS = 256 := rfl
  rw [h256] at hv
  omega

/-- Witness for C7 at the empty storage. -/
theorem id_storage_reserve_free_reserve_witness :
    (IdStorage.new.reserve.1.free IdStorage.new.reserve.2).reserve.2
      ≠ IdStorage.new.reserve.2 :=
  (id_storage_reserve_free_reserve.1 IdStorage.new (by decide) (by decide)).2.2.1

/-- Claim C4: `run_jobs` bookkeeping.  When the frame-result channel delivers
an error, `run_jobs` returns that error with the entity storage untouched
(bookkeeping skipped).  When it delivers `Ok`, every drained despawned id is
freed (afterwards no longer contained) and one id is reserved per drained
spawn request, so with `s` spawn requests and `d` despawn requests of live,
pairwise-distinct ids the live entity count changes by `s - d`. -/
theorem run_jobs_bookkeeping (fr : FrameResult) (entities : IdStorage)
    (despawned : List VIdx) (spawned : Nat)
    (hwf : IdStorage.wf entities = true)
    (hnd : despawned.Pairwise (· ≠ ·))
    (hcont : ∀ id ∈ despawned, entities.contains id = true)
    (hcap : entities.ids.length + spawned ≤ MAX_INDEX) :
    (∀ e, fr = .err e → runJobs fr entities despawned spawned = (.err e, entities)) ∧
    (fr = .ok →
      (runJobs fr entities despawned spawned).1 = .ok ∧
      (runJobs fr entities despawned spawned).2.len + despawned.length
        = entities.len + spawned ∧
      ∀ id ∈ despawned,
        (despawned.foldl IdStorage.free entities).contains id = false) := by
  constructor
  · intro e he
    rw [he]
    rfl
  · intro he
    subst he
    obtain ⟨h1, h2, h3, h4⟩ := IdStorage.freeFold_props despawned entities hwf hnd hcont
    have hcap2 : (despawned.foldl IdStorage.free entities).ids.length + spawned
        ≤ MAX_INDEX := by omega
    obtain ⟨h5, h6⟩ :=
      IdStorage.reserveN_props spawned (despawned.foldl IdStorage.free entities) h1 hcap2
    refine ⟨rfl, ?_, h4⟩
    show (IdStorage.reserveN (despawned.foldl IdStorage.free entities) spawned).len
        + despawned.length = entities.len + spawned
    omega

/-- Witness for C4: two live entities, one despawn and three spawns leave
four live entities (net +2). -/
theorem run_jobs_bookkeeping_witness :
    (runJobs .ok (IdStorage.reserveN IdStorage.new 2) [⟨0, 0⟩] 3).2.len + 1
      = (IdStorage.reserveN IdStorage.new 2).len + 3 :=
  ((run_jobs_bookkeeping .ok (IdStorage.reserveN IdStorage.new 2) [⟨0, 0⟩] 3
    (by decide) (by decide) (by decide) (by decide)).2 rfl).2.1

theorem set_append_len {α : Type _} (l : List α) (x v : α) :
    (l ++ [x]).set l.length v = l ++ [v] := by
  induction l with
  | nil => rfl
  | cons a t ih => simp [List.set, ih]

theorem set_append_len_eq {α : Type _} (l : List α) (x v : α) (n : Nat)
    (h : l.length = n) : (l ++ [x]).set n v = l ++ [v] := by
  subst h
  exact set_append_len l x v

theorem getD_append_len_eq {α : Type _} (l : List α) (x : α) (d : α) (n : Nat)
    (h : l.length = n) : (l ++ [x]).getD n d = x := by
  subst h
  exact getD_append_len l x d

theorem getD_append_right_sub {α : Type _} (l l' : List α) (i : Nat) (d : α)
    (h : l.length ≤ i) : (l ++ l').getD i d = l'.getD (i - l.length) d := by
  induction l generalizing i with
  | nil => simp
  | cons a t ih =>
    cases i with
    | zero => simp at h
    | succ j =>
      have hj : t.length ≤ j := by simpa using h
      simp only [List.cons_append, getD_cons_succ, List.length_cons,
        Nat.succ_sub_succ]
      exact ih j hj

theorem getD_replicate {α : Type _} (n i : Nat) (c d : α) (h : i < n) :
    (List.replicate n c).getD i d = c := by
  induction n generalizing i with
  | zero => omega
  | succ m ih =>
    rw [List.replicate_succ]
    cases i with
    | zero => rfl
    | succ j =>
      rw [getD_cons_succ]
      exact ih j (by omega)

theorem getD_map_range {α : Type _} (f : Nat → α) (n i : Nat) (d : α)
    (h : i < n) : ((List.range n).map f).getD i d = f i := by
  induction n with
  | zero => omega
  | succ m ih =>
    rw [List.range_succ, List.map_append]
    by_cases hm : i < m
    · rw [getD_append_left _ _ _ _ (by simpa using hm)]
      exact ih hm
    · have hi : i = m := by omega
      subst hi
      exact getD_append_len_eq _ _ _ _ (by simp)

namespace IdMappedResourceStorage

/-- `insert` of an id one past the end of the reverse array, with the free
list empty: the grow branch (resource.rs:193-197), in closed form. -/
theorem insert_grow_step {R : Type} (res : List (Option R)) (fwd rev : List VIdx)
    (v : R) (id : VIdx) (hrev : rev.length = id.index)
    (hfwd : fwd.length = id.index) :
    ((⟨res, fwd, rev, FREE_LIST_END⟩ : IdMappedResourceStorage R).insert id v)
      = (⟨res ++ [some v], fwd ++ [id], rev ++ [⟨id.index, 1⟩],
          FREE_LIST_END⟩, none) := by
  unfold insert
  have h1 : rev.length ≤ id.index := le_of_eq hrev
  have h2 : id.index + 1 - rev.length = 1 := by omega
  have h3 : (rev ++ [(VIdx.mk 0 0)]).getD id.index VIdx.zero = ⟨0, 0⟩ :=
    getD_append_len_eq _ _ _ _ hrev
  have h4 : (rev ++ [(VIdx.mk 0 0)]).set id.index ⟨id.index, 1⟩
      = rev ++ [⟨id.index, 1⟩] :=
    set_append_len_eq _ _ _ _ hrev
  simp only [if_pos h1, h2, List.replicate_one, h3, hfwd, h4]
  simp

/-- `remove` of a present id (resource.rs:215-230) in closed form: the
reverse entry of the id points at dense slot `k`. -/
theorem remove_live_eq {R : Type} (s : IdMappedResourceStorage R) (id : VIdx)
    (k : Nat) (h1 : id.index < s.reverse_array.length)
    (h2 : s.reverse_array.getD id.index VIdx.zero = ⟨k, 1⟩) :
    s.remove id = (⟨s.resources.set k none,
      s.forward_array.set k ⟨s.free_list_head, 0⟩,
      s.reverse_array.set id.index ⟨k, 0⟩, k⟩,
      s.resources.getD k none) := by
  unfold remove
  rw [if_neg (by omega)]
  rw [h2]
  simp

end IdMappedResourceStorage

/-- Closed form of inserting indices `0..n-1` in order into a fresh sparse
store: value `i` sits at dense position `i`, every insert takes the grow
branch, and the free-list head never moves off the sentinel. -/
theorem insertRangeState_eq (n : Nat) :
    insertRangeState n =
      ⟨(List.range n).map (fun i => some i),
       (List.range n).map (fun i => (⟨i, 0⟩ : VIdx)),
       (List.range n).map (fun i => (⟨i, 1⟩ : VIdx)),
       IdMappedResourceStorage.FREE_LIST_END⟩ := by
  induction n with
  | zero => rfl
  | succ m ih =>
    unfold insertRangeState at ih ⊢
    rw [List.range_succ, List.foldl_append, ih]
    simp only [List.foldl_cons, List.foldl_nil]
    rw [IdMappedResourceStorage.insert_grow_step _ _ _ _ _ (by simp) (by simp)]
    simp [List.map_append]

/-- The components of the C1 state, symbolically. -/
theorem c1State_eq :
    c1State =
      ⟨((List.range 255).map (fun i => some i)) ++ [none],
       ((List.range 255).map (fun i => (⟨i, 0⟩ : VIdx))) ++ [⟨255, 0⟩],
       ((List.range 255).map (fun i => (⟨i, 1⟩ : VIdx))) ++ [⟨255, 0⟩],
       255⟩ := by
  unfold c1State
  rw [insertRangeState_eq]
  rw [IdMappedResourceStorage.remove_live_eq _ _ 255 (by simp)
    (getD_map_range _ 256 255 _ (by omega))]
  have e : (256 : Nat) = 255 + 1 := by norm_num
  have h256 : List.range 256 = List.range 255 ++ [255] := by
    rw [e, List.range_succ]
  rw [h256]
  simp only [List.map_append, List.map_cons, List.map_nil]
  rw [set_append_len_eq _ _ _ _ (by simp), set_append_len_eq _ _ _ _ (by simp),
    set_append_len_eq _ _ _ _ (by simp)]
  rfl


/-- Claim C1 (code_bug exhibit): after inserting 256 entries and removing
the one at dense position 255, the free-list head equals the sentinel
`Id::MAX_VERSION = 255`, so the free chain is read as empty even though
dense position 255 is free: chain length (0) plus live count (255) is not
the dense length (256).  Invariant (3) of the claim is violated on a
public-API exit. -/
theorem free_chain_sentinel_collision :
    c1State.free_list_head = IdMappedResourceStorage.FREE_LIST_END ∧
    c1State.forward_array.length = 256 ∧
    IdMappedResourceStorage.liveCount c1State = 255 ∧
    IdMappedResourceStorage.denseFreeChain c1State = some [] ∧
    ¬ IdMappedResourceStorage.freeChainInvariant c1State := by
  have hhead : c1State.free_list_head = IdMappedResourceStorage.FREE_LIST_END := by
    rw [c1State_eq]
    rfl
  have hflen : c1State.forward_array.length = 256 := by
    rw [c1State_eq]
    simp
  have hlive : IdMappedResourceStorage.liveCount c1State = 255 := by
    rw [c1State_eq]
    unfold IdMappedResourceStorage.liveCount
    simp only
    rw [List.countP_append]
    have h1 : List.countP (fun r => r.version == 1)
        ((List.range 255).map (fun i => (⟨i, 1⟩ : VIdx))) = 255 := by
      have : ∀ a ∈ (List.range 255).map (fun i => (⟨i, 1⟩ : VIdx)),
          (fun r : VIdx => r.version == 1) a = true := by
        intro a ha
        obtain ⟨i, _, rfl⟩ := List.mem_map.mp ha
        rfl
      rw [List.countP_eq_length.mpr this]
      simp
    rw [h1]
    rfl
  have hchain : IdMappedResourceStorage.denseFreeChain c1State = some [] := by
    unfold IdMappedResourceStorage.denseFreeChain
    rw [hflen, hhead]
    rfl
  refine ⟨hhead, hflen, hlive, hchain, ?_⟩
  rintro ⟨l, hl, hsum⟩
  rw [hchain] at hl
  cases hl
  rw [hlive, hflen] at hsum
  simp at hsum

/-- Claim C2 (code_bug exhibit): `iter()` visits the dense positions `i`
with `forward[i].index == i` — but those are not the live entries.  Insert a
single id with index 1 into a fresh storage: the entry lands at dense
position 0 with `forward[0] = {i:1}`, the iterator's test `1 == 0` fails,
and iteration yields nothing although the entry is live (`get` finds it). -/
theorem iteration_misses_live_entry :
    ((IdMappedResourceStorage.new : IdMappedResourceStorage Nat).insert
        ⟨1, 0⟩ 42).1.iterList = [] ∧
    ((IdMappedResourceStorage.new : IdMappedResourceStorage Nat).insert
        ⟨1, 0⟩ 42).1.get ⟨1, 0⟩ = some 42 ∧
    ((IdMappedResourceStorage.new : IdMappedResourceStorage Nat).insert
        ⟨1, 0⟩ 42).1.liveCount = 1 := by
  decide

namespace IdMappedResourceStorage

theorem wfr_dest {R : Type} {s : IdMappedResourceStorage R}
    (h : wfr s = true) :
    s.forward_array.length = s.resources.length ∧
    (s.free_list_head = FREE_LIST_END ∨
      s.free_list_head < s.forward_array.length) ∧
    ∀ i, i < s.reverse_array.length →
      (s.reverse_array.getD i VIdx.zero).version ≤ 1 ∧
      ((s.reverse_array.getD i VIdx.zero).version = 0 ∨
        ((s.reverse_array.getD i VIdx.zero).index < s.resources.length ∧
          (s.resources.getD (s.reverse_array.getD i VIdx.zero).index
            none).isSome = true)) := by
  unfold wfr at h
  simp only [Bool.and_eq_true, List.all_eq_true, beq_iff_eq, Bool.or_eq_true,
    decide_eq_true_eq] at h
  obtain ⟨⟨h1, h2⟩, h3⟩ := h
  refine ⟨h1, h2, ?_⟩
  intro i hi
  have := h3 i (List.mem_range.mpr hi)
  exact this

/-- `get` through a live reverse pointer reads the dense slot. -/
theorem get_of_livePointer {R : Type} {s : IdMappedResourceStorage R}
    {id : VIdx} {k : Nat} (h : livePointer s id k) :
    s.get id = s.resources.getD k none := by
  obtain ⟨h1, h2, h3⟩ := h
  unfold get
  rw [if_pos h1]
  simp only [h2]
  rfl

/-- An id absent from a well-formed store has reverse version 0 (or lies
beyond the reverse array). -/
theorem absent_version {R : Type} {s : IdMappedResourceStorage R} {id : VIdx}
    (hwfr : wfr s = true) (habs : s.get id = none) :
    s.reverse_array.length ≤ id.index ∨
      (id.index < s.reverse_array.length ∧
        (s.reverse_array.getD id.index VIdx.zero).version = 0) := by
  by_cases hlt : id.index < s.reverse_array.length
  · right
    refine ⟨hlt, ?_⟩
    have hwd := (wfr_dest hwfr).2.2 id.index hlt
    have hle := hwd.1
    unfold get at habs
    rw [if_pos hlt] at habs
    by_cases hv : (s.reverse_array.getD id.index VIdx.zero).version = 1
    · rw [if_pos hv] at habs
      rcases hwd.2 with h0 | ⟨_, hsome⟩
      · exact h0
      · rw [habs] at hsome
        simp at hsome
    · omega
  · left
    omega
/-- `insert` of an absent id into a well-formed store: returns `none`,
establishes a live pointer at some dense slot holding the new value, and
preserves the dense parallel-array shape.  Covers both the grow branch and
the free-slot branch (resource.rs:192-206). -/
theorem insert_absent {R : Type} {s : IdMappedResourceStorage R} {id : VIdx}
    (v : R) (hwfr : wfr s = true) (habs : s.get id = none) :
    ∃ k, (s.insert id v).2 = none ∧
      livePointer (s.insert id v).1 id k ∧
      (s.insert id v).1.resources.getD k none = some v := by
  obtain ⟨hpar, hhead, hrev⟩ := wfr_dest hwfr
  have hver := absent_version hwfr habs
  by_cases hresize : s.reverse_array.length ≤ id.index
  · -- the reverse array is extended with version-0 entries up to the id
    have hfill : (s.reverse_array ++
        List.replicate (id.index + 1 - s.reverse_array.length)
          (VIdx.mk 0 0)).getD id.index VIdx.zero = VIdx.mk 0 0 := by
      rw [getD_append_right_sub _ _ _ _ hresize]
      exact getD_replicate _ _ _ _ (by omega)
    by_cases hE : s.free_list_head = FREE_LIST_END
    · -- grow branch
      have hstate : s.insert id v =
          (⟨s.resources ++ [some v], s.forward_array ++ [id],
            (s.reverse_array ++
              List.replicate (id.index + 1 - s.reverse_array.length)
                (VIdx.mk 0 0)).set id.index ⟨s.forward_array.length, 1⟩,
            FREE_LIST_END⟩, none) := by
        unfold insert
        simp only [if_pos hresize, hfill, hE]
        rfl
      rw [hstate]
      refine ⟨s.forward_array.length, rfl, ⟨?_, ?_, ?_⟩, ?_⟩
      · simp only [List.length_set, List.length_append, List.length_replicate]
        omega
      · exact getD_set_self _ _ _ _
          (by simp only [List.length_append, List.length_replicate]; omega)
      · simp only [List.length_append, List.length_singleton]
        omega
      · rw [hpar]
        exact getD_append_len _ _ _
    · -- free-slot branch
      have hfree : s.free_list_head < s.forward_array.length :=
        hhead.resolve_left hE
      have hstate : s.insert id v =
          (⟨s.resources.set s.free_list_head (some v),
            s.forward_array.set s.free_list_head id,
            (s.reverse_array ++
              List.replicate (id.index + 1 - s.reverse_array.length)
                (VIdx.mk 0 0)).set id.index ⟨s.free_list_head, 1⟩,
            (s.forward_array.getD s.free_list_head VIdx.zero).index⟩,
            none) := by
        unfold insert
        simp only [if_pos hresize, hfill, if_neg hE]
        rfl
      rw [hstate]
      refine ⟨s.free_list_head, rfl, ⟨?_, ?_, ?_⟩, ?_⟩
      · simp only [List.length_set, List.length_append, List.length_replicate]
        omega
      · exact getD_set_self _ _ _ _
          (by simp only [List.length_append, List.length_replicate]; omega)
      · simp only [List.length_set]
        omega
      · exact getD_set_self _ _ _ _ (by omega)
  · -- no resize: the reverse entry exists with version 0
    have hlt : id.index < s.reverse_array.length := by omega
    have hv0 : (s.reverse_array.getD id.index VIdx.zero).version = 0 := by
      rcases hver with h | h
      · omega
      · exact h.2
    by_cases hE : s.free_list_head = FREE_LIST_END
    · have hstate : s.insert id v =
          (⟨s.resources ++ [some v], s.forward_array ++ [id],
            s.reverse_array.set id.index ⟨s.forward_array.length, 1⟩,
            FREE_LIST_END⟩, none) := by
        unfold insert
        simp only [if_neg hresize, hv0, hE]
        rfl
      rw [hstate]
      refine ⟨s.forward_array.length, rfl, ⟨?_, ?_, ?_⟩, ?_⟩
      · simp only [List.length_set]
        omega
      · exact getD_set_self _ _ _ _ hlt
      · simp only [List.length_append, List.length_singleton]
        omega
      · rw [hpar]
        exact getD_append_len _ _ _
    · have hfree : s.free_list_head < s.forward_array.length :=
        hhead.resolve_left hE
      have hstate : s.insert id v =
          (⟨s.resources.set s.free_list_head (some v),
            s.forward_array.set s.free_list_head id,
            s.reverse_array.set id.index ⟨s.free_list_head, 1⟩,
            (s.forward_array.getD s.free_list_head VIdx.zero).index⟩,
            none) := by
        unfold insert
        simp only [if_neg hresize, hv0, if_neg hE]
        rfl
      rw [hstate]
      refine ⟨s.free_list_head, rfl, ⟨?_, ?_, ?_⟩, ?_⟩
      · simp only [List.length_set]
        omega
      · exact getD_set_self _ _ _ _ hlt
      · simp only [List.length_set]
        omega
      · exact getD_set_self _ _ _ _ (by omega)


/-- `insert` of a present id (resource.rs:207-212): overwrites the dense
slot in place, returning the previous value; the reverse pointer and the
other components are unchanged. -/
theorem insert_live {R : Type} {s : IdMappedResourceStorage R} {id : VIdx}
    {k : Nat} (v : R) (hlp : livePointer s id k) :
    (s.insert id v).2 = s.resources.getD k none ∧
      livePointer (s.insert id v).1 id k ∧
      (s.insert id v).1.resources.getD k none = some v ∧
      (s.insert id v).1.reverse_array = s.reverse_array := by
  obtain ⟨h1, h2, h3⟩ := hlp
  have hni : ¬ s.reverse_array.length ≤ id.index := by omega
  unfold insert
  simp only [if_neg hni, h2]
  refine ⟨rfl, ⟨h1, h2, ?_⟩, ?_, rfl⟩
  · show k < (s.resources.set k (some v)).length
    simp only [List.length_set]
    omega
  · show (s.resources.set k (some v)).getD k none = some v
    exact getD_set_self _ _ _ _ h3

/-- `remove` of a present id (resource.rs:215-230): returns the dense slot
and marks the reverse entry absent, so a following `get` yields `none`. -/
theorem remove_live {R : Type} {s : IdMappedResourceStorage R} {id : VIdx}
    {k : Nat} (hlp : livePointer s id k) :
    (s.remove id).2 = s.resources.getD k none ∧
      (s.remove id).1.get id = none := by
  obtain ⟨h1, h2, h3⟩ := hlp
  rw [remove_live_eq s id k h1 h2]
  refine ⟨rfl, ?_⟩
  unfold get
  have hset : (s.reverse_array.set id.index (VIdx.mk k 0)).getD id.index
      VIdx.zero = ⟨k, 0⟩ := getD_set_self _ _ _ _ h1
  simp only [List.length_set, if_pos h1, hset]
  rfl

/-- `remove` of an absent id (resource.rs:216-223): no-op returning
`none`. -/
theorem remove_absent {R : Type} {s : IdMappedResourceStorage R} {id : VIdx}
    (hwfr : wfr s = true) (habs : s.get id = none) :
    s.remove id = (s, none) := by
  have hver := absent_version hwfr habs
  unfold remove
  rcases hver with h | ⟨h1, h2⟩
  · rw [if_pos h]
  · simp only [if_neg (show ¬ s.reverse_array.length ≤ id.index by omega), h2]
    rfl


end IdMappedResourceStorage


theorem map_set {α β : Type _} (f : α → β) (l : List α) (i : Nat) (a : α) :
    (l.set i a).map f = (l.map f).set i (f a) := by
  induction l generalizing i with
  | nil => rfl
  | cons b t ih =>
    cases i with
    | zero => rfl
    | succ j => simp [List.set, ih]

/-- Claim C6: round-trip laws of the sparse resource store.  For a
well-formed store and an id it does not hold: `insert(id, v1)` returns
`None` and then `get(id) == Some(v1)`; a second `insert(id, v2)` overwrites
in place returning `Some(v1)` with `get(id) == Some(v2)`; `remove(id)` then
returns `Some(v2)` and `get(id) == None`; `remove` on the absent id returns
`None`. -/
theorem sparse_store_round_trip {R : Type} (s : IdMappedResourceStorage R)
    (id : VIdx) (v1 v2 : R)
    (hwfr : IdMappedResourceStorage.wfr s = true) (habs : s.get id = none) :
    (s.insert id v1).2 = none ∧
    (s.insert id v1).1.get id = some v1 ∧
    ((s.insert id v1).1.insert id v2).2 = some v1 ∧
    ((s.insert id v1).1.insert id v2).1.get id = some v2 ∧
    (((s.insert id v1).1.insert id v2).1.remove id).2 = some v2 ∧
    (((s.insert id v1).1.insert id v2).1.remove id).1.get id = none ∧
    (s.remove id).2 = none := by
  obtain ⟨k, hr1, hlp1, hv1⟩ :=
    IdMappedResourceStorage.insert_absent v1 hwfr habs
  have hget1 : (s.insert id v1).1.get id = some v1 := by
    rw [IdMappedResourceStorage.get_of_livePointer hlp1, hv1]
  obtain ⟨hr2, hlp2, hv2, _⟩ := IdMappedResourceStorage.insert_live v2 hlp1
  have hr2' : ((s.insert id v1).1.insert id v2).2 = some v1 := by
    rw [hr2, hv1]
  have hget2 : ((s.insert id v1).1.insert id v2).1.get id = some v2 := by
    rw [IdMappedResourceStorage.get_of_livePointer hlp2, hv2]
  obtain ⟨hr3, hg3⟩ := IdMappedResourceStorage.remove_live hlp2
  have hr3' : (((s.insert id v1).1.insert id v2).1.remove id).2 = some v2 := by
    rw [hr3, hv2]
  refine ⟨hr1, hget1, hr2', hget2, hr3', hg3, ?_⟩
  rw [IdMappedResourceStorage.remove_absent hwfr habs]

/-- Witness for C6 at the empty store with id `{i:0,v:0}`. -/
theorem sparse_store_round_trip_witness :
    ((IdMappedResourceStorage.new : IdMappedResourceStorage Nat).insert
      ⟨0, 0⟩ 1).1.get ⟨0, 0⟩ = some 1 :=
  (sparse_store_round_trip IdMappedResourceStorage.new ⟨0, 0⟩ 1 2
    (by decide) (by decide)).2.1

/-- Claim C10, amended: the sparse store keys entries by the index field
only for `get` and `remove` — `get(e) == get(e')` and `remove` with `e` and
with `e'` produce identical stores and return values whenever
`index(e) == index(e')`; `insert` with `e` and with `e'` returns the same
value and produces stores that agree on the dense values, the reverse
array and the free-list head (hence on every subsequent `get`), differing
at most in the version recorded in the forward array. -/
theorem sparse_store_keyed_by_index {R : Type} (s : IdMappedResourceStorage R)
    (e e' : VIdx) (h : e.index = e'.index) (v : R) :
    s.get e = s.get e' ∧
    s.remove e = s.remove e' ∧
    (s.insert e v).2 = (s.insert e' v).2 ∧
    (s.insert e v).1.resources = (s.insert e' v).1.resources ∧
    (s.insert e v).1.reverse_array = (s.insert e' v).1.reverse_array ∧
    (s.insert e v).1.free_list_head = (s.insert e' v).1.free_list_head ∧
    (s.insert e v).1.forward_array.map VIdx.index
      = (s.insert e' v).1.forward_array.map VIdx.index ∧
    ∀ q, (s.insert e v).1.get q = (s.insert e' v).1.get q := by
  have hget : s.get e = s.get e' := by
    unfold IdMappedResourceStorage.get
    rw [h]
  have hrem : s.remove e = s.remove e' := by
    unfold IdMappedResourceStorage.remove
    rw [h]
  have hins : (s.insert e v).2 = (s.insert e' v).2 ∧
      (s.insert e v).1.resources = (s.insert e' v).1.resources ∧
      (s.insert e v).1.reverse_array = (s.insert e' v).1.reverse_array ∧
      (s.insert e v).1.free_list_head = (s.insert e' v).1.free_list_head ∧
      (s.insert e v).1.forward_array.map VIdx.index
        = (s.insert e' v).1.forward_array.map VIdx.index := by
    unfold IdMappedResourceStorage.insert
    rw [h]
    by_cases hresize : s.reverse_array.length ≤ e'.index
    · simp only [if_pos hresize]
      by_cases hv0 : ((s.reverse_array ++
          List.replicate (e'.index + 1 - s.reverse_array.length)
            (VIdx.mk 0 0)).getD e'.index VIdx.zero).version = 0
      · simp only [if_pos hv0]
        by_cases hE : s.free_list_head = IdMappedResourceStorage.FREE_LIST_END
        · simp only [if_pos hE]
          refine ⟨by trivial, by trivial, by trivial, by trivial, ?_⟩
          simp [h]
        · simp only [if_neg hE]
          refine ⟨by trivial, by trivial, by trivial, by trivial, ?_⟩
          rw [map_set, map_set, h]
      · simp only [if_neg hv0]
        exact ⟨by trivial, by trivial, by trivial, by trivial, by trivial⟩
    · simp only [if_neg hresize]
      by_cases hv0 : ((s.reverse_array).getD e'.index VIdx.zero).version = 0
      · simp only [if_pos hv0]
        by_cases hE : s.free_list_head = IdMappedResourceStorage.FREE_LIST_END
        · simp only [if_pos hE]
          refine ⟨by trivial, by trivial, by trivial, by trivial, ?_⟩
          simp [h]
        · simp only [if_neg hE]
          refine ⟨by trivial, by trivial, by trivial, by trivial, ?_⟩
          rw [map_set, map_set, h]
      · simp only [if_neg hv0]
        exact ⟨by trivial, by trivial, by trivial, by trivial, by trivial⟩
  refine ⟨hget, hrem, hins.1, hins.2.1, hins.2.2.1, hins.2.2.2.1,
    hins.2.2.2.2, ?_⟩
  intro q
  unfold IdMappedResourceStorage.get
  rw [hins.2.1, hins.2.2.1]

/-- Witness for C10 (amended) at the empty store with ids `{i:0,v:0}` and
`{i:0,v:1}`. -/
theorem sparse_store_keyed_by_index_witness :
    ((IdMappedResourceStorage.new : IdMappedResourceStorage Nat).insert
        ⟨0, 0⟩ 7).2
      = ((IdMappedResourceStorage.new : IdMappedResourceStorage Nat).insert
        ⟨0, 1⟩ 7).2 :=
  (sparse_store_keyed_by_index IdMappedResourceStorage.new ⟨0, 0⟩ ⟨0, 1⟩
    rfl 7).2.2.1

/-- Counterexample to C10 as stated: `insert` applied with two ids of equal
index but different version does not behave identically — the resulting
stores differ (the id, version included, is recorded in the forward array)
and a subsequent iteration yields different pairs. -/
theorem sparse_store_insert_version_counterexample :
    (VIdx.mk 0 0).index = (VIdx.mk 0 1).index ∧
    ((IdMappedResourceStorage.new : IdMappedResourceStorage Nat).insert
        ⟨0, 0⟩ 42).1
      ≠ ((IdMappedResourceStorage.new : IdMappedResourceStorage Nat).insert
        ⟨0, 1⟩ 42).1 ∧
    ((IdMappedResourceStorage.new : IdMappedResourceStorage Nat).insert
        ⟨0, 0⟩ 42).1.iterList
      ≠ ((IdMappedResourceStorage.new : IdMappedResourceStorage Nat).insert
        ⟨0, 1⟩ 42).1.iterList := by
  decide

/-- Claim C5 (code_bug exhibit).  Within the failing frame the first error
sent is the one received (first-error-wins for that `tick`), and the second
error remains queued in the mpsc channel; the next frame's `recv` then
returns that stale error even though every job of the next frame succeeded
(the last completion having queued `Ok` behind it).  So both errors are
eventually returned by `tick` and the subsequent frame does not run
normally. -/
theorem stale_error_returned_next_frame :
    (SchedulerState.recvFrameResult
        (SchedulerState.finishJobError
          (SchedulerState.finishJobError c5Sched c5e1) c5e2)).1
      = some (.err c5e1) ∧
    (SchedulerState.recvFrameResult
        (SchedulerState.finishJobError
          (SchedulerState.finishJobError c5Sched c5e1) c5e2)).2.frame_channel
      = [.err c5e2] ∧
    (SchedulerState.recvFrameResult
        (SchedulerState.finishJobSuccess
          (SchedulerState.finishJobSuccess
            (SchedulerState.resetFrame
              (SchedulerState.recvFrameResult
                (SchedulerState.finishJobError
                  (SchedulerState.finishJobError c5Sched c5e1) c5e2)).2)
            0) 1)).1
      = some (.err c5e2) := by
  refine ⟨rfl, rfl, rfl⟩

/-- Claim C8 (code_bug exhibit).  `Scene::resource_storage` indexes the
storages vector with `resource_id.index()`; for an unregistered id the
index lies beyond the vector (registration fills the slots contiguously)
and the indexing panics (modelled as the outer `none`) instead of yielding
absent.  With no resources registered any lookup panics; with one
registered resource the unregistered id `{i:1,v:0}` panics while the
registered one is found. -/
theorem resource_storage_panics_on_unregistered :
    Scene.resource_storage (make_resource_storages []) ⟨0, 0⟩ = none ∧
    Scene.resource_storage (make_resource_storages [⟨0, 0⟩]) ⟨1, 0⟩ = none ∧
    Scene.resource_storage (make_resource_storages [⟨0, 0⟩]) ⟨0, 0⟩
      = some (some ()) := by
  refine ⟨rfl, rfl, rfl⟩

namespace SchedulerState

theorem finishStep_spec (s : SchedulerState) (d : Nat) :
    (finishStep s d).jobs
        = s.jobs.set d (s.jobs.getD d jdefault).bump ∧
    (finishStep s d).available_jobs = s.available_jobs ++ claimPushes s d ∧
    (finishStep s d).viewports = s.viewports ∧
    (finishStep s d).jobs_finished = s.jobs_finished ∧
    (finishStep s d).frame_channel = s.frame_channel ∧
    (finishStep s d).regular_job_count = s.regular_job_count ∧
    (finishStep s d).per_viewport_job_count = s.per_viewport_job_count := by
  by_cases hsat : (s.jobs.getD d jdefault).dependencies_finished + 1
      = jobSaturation s (s.jobs.getD d jdefault)
  · unfold finishStep claimPushes
    simp only [if_pos hsat]
    exact ⟨by trivial, by trivial, by trivial, by trivial, by trivial,
      by trivial, by trivial⟩
  · unfold finishStep claimPushes
    simp only [if_neg hsat]
    exact ⟨by trivial, by simp, by trivial, by trivial, by trivial,
      by trivial, by trivial⟩

theorem claimPushes_congr {s t : SchedulerState} (k : Nat)
    (hjob : t.jobs.getD k jdefault = s.jobs.getD k jdefault)
    (hvp : t.viewports = s.viewports) :
    claimPushes t k = claimPushes s k := by
  unfold claimPushes jobSaturation
  rw [hjob, hvp]

theorem concatMapPushes_congr {s t : SchedulerState} :
    ∀ (l : List Nat),
    (∀ k ∈ l, t.jobs.getD k jdefault = s.jobs.getD k jdefault) →
    t.viewports = s.viewports →
    concatMapPushes t l = concatMapPushes s l := by
  intro l
  induction l with
  | nil => intro _ _; rfl
  | cons d rest ih =>
    intro hjob hvp
    unfold concatMapPushes
    rw [claimPushes_congr d (hjob d (List.mem_cons_self d rest)) hvp,
      ih (fun k hk => hjob k (List.mem_cons_of_mem d hk)) hvp]

theorem processSuccessors_spec : ∀ (succs : List Nat) (s : SchedulerState),
    succs.Nodup → (∀ k ∈ succs, k < s.jobs.length) →
    ((∀ k ∈ succs,
      (processSuccessors s succs).jobs.getD k jdefault
        = (s.jobs.getD k jdefault).bump) ∧
    (∀ k, k ∉ succs →
      (processSuccessors s succs).jobs.getD k jdefault
        = s.jobs.getD k jdefault) ∧
    (processSuccessors s succs).available_jobs
      = s.available_jobs ++ concatMapPushes s succs ∧
    (processSuccessors s succs).viewports = s.viewports ∧
    (processSuccessors s succs).jobs_finished = s.jobs_finished ∧
    (processSuccessors s succs).frame_channel = s.frame_channel ∧
    (processSuccessors s succs).jobs.length = s.jobs.length) := by
  intro succs
  induction succs with
  | nil =>
    intro s _ _
    exact ⟨fun k hk => absurd hk (List.not_mem_nil k),
      fun k _ => rfl, by simp [processSuccessors, concatMapPushes],
      rfl, rfl, rfl, rfl⟩
  | cons d t ih =>
    intro s hnd hlt
    have hd : d < s.jobs.length := hlt d (List.mem_cons_self d t)
    obtain ⟨f1, f2, f3, f4, f5, f6, f7⟩ := finishStep_spec s d
    have hnotmem : d ∉ t := (List.nodup_cons.mp hnd).1
    have hlen1 : (finishStep s d).jobs.length = s.jobs.length := by
      rw [f1]
      simp
    have hgd : (finishStep s d).jobs.getD d jdefault
        = (s.jobs.getD d jdefault).bump := by
      rw [f1]
      exact getD_set_self _ _ _ _ hd
    have hgne : ∀ k, k ≠ d → (finishStep s d).jobs.getD k jdefault
        = s.jobs.getD k jdefault := by
      intro k hk
      rw [f1]
      exact getD_set_ne _ _ _ _ _ (fun hq => hk hq.symm)
    have hstep : processSuccessors s (d :: t)
        = processSuccessors (finishStep s d) t := rfl
    obtain ⟨g1, g2, g3, g4, g5, g6, g7⟩ :=
      ih (finishStep s d) (List.nodup_cons.mp hnd).2
        (by
          intro k hk
          rw [hlen1]
          exact hlt k (List.mem_cons_of_mem d hk))
    refine ⟨?_, ?_, ?_, ?_, ?_, ?_, ?_⟩
    · intro k hk
      rw [hstep]
      rcases List.mem_cons.mp hk with rfl | hk
      · rw [g2 k hnotmem, hgd]
      · rw [g1 k hk, hgne k (fun hq => hnotmem (hq ▸ hk))]
    · intro k hk
      rw [hstep]
      have hkd : k ≠ d := fun hq => hk (hq ▸ List.mem_cons_self d t)
      have hkt : k ∉ t := fun hq => hk (List.mem_cons_of_mem d hq)
      rw [g2 k hkt, hgne k hkd]
    · rw [hstep, g3, f2]
      have hcm : concatMapPushes (finishStep s d) t = concatMapPushes s t :=
        concatMapPushes_congr t
          (fun k hk => hgne k (fun hq => hnotmem (hq ▸ hk))) f3
      rw [hcm]
      show _ = s.available_jobs ++ (claimPushes s d ++ concatMapPushes s t)
      rw [List.append_assoc]
    · rw [hstep, g4, f3]
    · rw [hstep, g5, f4]
    · rw [hstep, g6, f5]
    · rw [hstep, g7, hlen1]

end SchedulerState

/-- Claim C3: when a worker completes a job (and the frame is not yet
complete, so the successor loop runs — scheduler.rs:274-303), it increments
each successor's `dependencies_finished` counter exactly once, leaves every
other job untouched, and appends to the ready queue exactly the successors
whose counter thereby reaches
`regular_predecessors + per_viewport_predecessors * viewport_count`
(never before — `claimPushes` is empty below the threshold), each pushed
once per viewport if per-viewport and once otherwise; no frame result is
sent.  The successor list is duplicate-free because job dependencies are a
`HashSet` (core job.rs:32). -/
theorem scheduler_successor_saturation (s : SchedulerState) (job_index : Nat)
    (hnot : s.jobs_finished + 1 ≠ SchedulerState.expectedJobTotal s)
    (hnd : (s.jobs.getD job_index jdefault).required_for.Nodup)
    (hlt : ∀ k ∈ (s.jobs.getD job_index jdefault).required_for,
      k < s.jobs.length) :
    (∀ k ∈ (s.jobs.getD job_index jdefault).required_for,
      ((s.finishJobSuccess job_index).jobs.getD k
          jdefault).dependencies_finished
        = (s.jobs.getD k jdefault).dependencies_finished + 1) ∧
    (∀ k, k ∉ (s.jobs.getD job_index jdefault).required_for →
      (s.finishJobSuccess job_index).jobs.getD k jdefault
        = s.jobs.getD k jdefault) ∧
    (s.finishJobSuccess job_index).available_jobs
      = s.available_jobs ++ SchedulerState.concatMapPushes s
          (s.jobs.getD job_index jdefault).required_for ∧
    (s.finishJobSuccess job_index).frame_channel = s.frame_channel ∧
    (s.finishJobSuccess job_index).jobs_finished = s.jobs_finished + 1 := by
  have hnot1 : ¬ (({ s with jobs_finished := s.jobs_finished + 1 }
        : SchedulerState).jobs_finished
      = SchedulerState.expectedJobTotal
        { s with jobs_finished := s.jobs_finished + 1 }) := hnot
  have hstep : s.finishJobSuccess job_index
      = SchedulerState.processSuccessors
          { s with jobs_finished := s.jobs_finished + 1 }
          (s.jobs.getD job_index jdefault).required_for := by
    unfold SchedulerState.finishJobSuccess
    simp only [if_neg hnot1]
  obtain ⟨g1, g2, g3, g4, g5, g6, g7⟩ :=
    SchedulerState.processSuccessors_spec
      (s.jobs.getD job_index jdefault).required_for
      { s with jobs_finished := s.jobs_finished + 1 } hnd hlt
  refine ⟨?_, ?_, ?_, ?_, ?_⟩
  · intro k hk
    rw [hstep, g1 k hk]
    rfl
  · intro k hk
    rw [hstep, g2 k hk]
  · rw [hstep, g3]
    have hcm : SchedulerState.concatMapPushes
        { s with jobs_finished := s.jobs_finished + 1 }
        (s.jobs.getD job_index jdefault).required_for
      = SchedulerState.concatMapPushes s
        (s.jobs.getD job_index jdefault).required_for :=
      SchedulerState.concatMapPushes_congr _ (fun k _ => rfl) rfl
    rw [hcm]
  · rw [hstep, g6]
  · rw [hstep, g5]

/-- Witness for C3: in the two-job configuration `c3Sched`, completing
job 0 enqueues its successor (job 1, whose single regular dependency is
thereby satisfied) once, with no viewport. -/
theorem scheduler_successor_saturation_witness :
    (SchedulerState.finishJobSuccess c3Sched 0).available_jobs
      = [⟨1, none⟩] := by
  have h := scheduler_successor_saturation c3Sched 0 (by decide) (by decide)
    (by decide)
  rw [h.2.2.1]
  decide

theorem processComponents_err_of_unknown (registry : List String) :
    ∀ comps : List (String × Json),
    (∃ p ∈ comps, resource_id_from_label registry p.1 = none) →
    ∃ label, resource_id_from_label registry label = none ∧
      (∃ p ∈ comps, p.1 = label) ∧
      processComponents registry comps
        = .error ⟨"invalid entity component: " ++ label,
            sceneLocInvalidComponent⟩ := by
  intro comps
  induction comps with
  | nil =>
    rintro ⟨p, hp, _⟩
    exact absurd hp (List.not_mem_nil p)
  | cons c rest ih =>
    rintro ⟨p, hp, hup⟩
    obtain ⟨label, value⟩ := c
    cases hr : resource_id_from_label registry label with
    | none =>
      refine ⟨label, hr, ⟨(label, value), List.mem_cons_self _ _, rfl⟩, ?_⟩
      unfold processComponents
      rw [hr]
    | some i =>
      rcases List.mem_cons.mp hp with rfl | hp
      · rw [hup] at hr
        exact absurd hr (by simp)
      · obtain ⟨l', h1, ⟨q, hq, hq1⟩, h3⟩ := ih ⟨p, hp, hup⟩
        refine ⟨l', h1, ⟨q, List.mem_cons_of_mem _ hq, hq1⟩, ?_⟩
        unfold processComponents
        rw [hr, h3]

theorem processComponents_ok_of_known (registry : List String) :
    ∀ comps : List (String × Json),
    (∀ q ∈ comps, resource_id_from_label registry q.1 ≠ none) →
    processComponents registry comps = .ok () := by
  intro comps
  induction comps with
  | nil => intro _; rfl
  | cons q qrest ihq =>
    intro hall
    obtain ⟨ql, qv⟩ := q
    unfold processComponents
    cases hr : resource_id_from_label registry ql with
    | none =>
      exact absurd hr (hall (ql, qv) (List.mem_cons_self _ _))
    | some i =>
      exact ihq (fun w hw => hall w (List.mem_cons_of_mem _ hw))

theorem processEntities_err_of_missing (registry : List String) :
    ∀ (es : List Json) (entities : IdStorage),
    (∃ e ∈ es, (getField e "components").bind asObject = none) →
    ∃ err, processEntities registry es entities = .error err := by
  intro es
  induction es with
  | nil =>
    rintro entities ⟨e, he, _⟩
    exact absurd he (List.not_mem_nil e)
  | cons e rest ih =>
    rintro entities ⟨f, hf, hnone⟩
    unfold processEntities
    cases hc : (getField e "components").bind asObject with
    | none =>
      simp only [hc]
      exact ⟨⟨"components field not found", sceneLocMissingComponents⟩, rfl⟩
    | some comps =>
      simp only [hc]
      cases hpc : processComponents registry comps with
      | error err =>
        simp only [hpc]
        exact ⟨err, rfl⟩
      | ok u =>
        cases u
        simp only [hpc]
        rcases List.mem_cons.mp hf with rfl | hf
        · rw [hnone] at hc
          exact absurd hc (by simp)
        · exact ih (entities.reserve).1 ⟨f, hf, hnone⟩

theorem processEntities_err_of_unknown (registry : List String) :
    ∀ (es : List Json) (entities : IdStorage),
    (∀ e ∈ es, ∃ c, (getField e "components").bind asObject = some c) →
    (∃ e ∈ es, ∃ c, (getField e "components").bind asObject = some c ∧
      ∃ p ∈ c, resource_id_from_label registry p.1 = none) →
    ∃ label, resource_id_from_label registry label = none ∧
      processEntities registry es entities
        = .error ⟨"invalid entity component: " ++ label,
            sceneLocInvalidComponent⟩ := by
  intro es
  induction es with
  | nil =>
    rintro entities _ ⟨e, he, _⟩
    exact absurd he (List.not_mem_nil e)
  | cons e rest ih =>
    rintro entities hall ⟨f, hf, c, hc, p, hpmem, hpu⟩
    obtain ⟨ce, hce⟩ := hall e (List.mem_cons_self e rest)
    unfold processEntities
    simp only [hce]
    by_cases hu : ∃ q ∈ ce, resource_id_from_label registry q.1 = none
    · obtain ⟨label, h1, _, h3⟩ :=
        processComponents_err_of_unknown registry ce hu
      simp only [h3]
      exact ⟨label, h1, rfl⟩
    · have hok : processComponents registry ce = .ok () :=
        processComponents_ok_of_known registry ce
          (fun q hq hqnone => hu ⟨q, hq, hqnone⟩)
      simp only [hok]
      rcases List.mem_cons.mp hf with rfl | hf
      · rw [hce] at hc
        cases Option.some.inj hc
        exact absurd ⟨p, hpmem, hpu⟩ hu
      · exact ih (entities.reserve).1
          (fun g hg => hall g (List.mem_cons_of_mem e hg))
          ⟨f, hf, c, hc, p, hpmem, hpu⟩

/-- Claim C9: `Scene::from_json` returns a scene-build error carrying a
source location whenever the document lacks an `entities` array, an entity
lacks a `components` object, or a component label is not registered; in the
unknown-label case the message is `invalid entity component: {label}`, so
it contains the literal unknown label.  The final conjunct is the spec's S5
scenario verbatim. -/
theorem from_json_error_cases (registry : List String) (j : Json) :
    ((getField j "entities").bind asArray = none →
      from_json registry j
        = .error ⟨"no entities found in scene JSON", sceneLocNoEntities⟩) ∧
    (∀ es, (getField j "entities").bind asArray = some es →
      (∃ e ∈ es, (getField e "components").bind asObject = none) →
      ∃ err, from_json registry j = .error err) ∧
    (∀ es, (getField j "entities").bind asArray = some es →
      (∀ e ∈ es, ∃ c, (getField e "components").bind asObject = some c) →
      (∃ e ∈ es, ∃ c, (getField e "components").bind asObject = some c ∧
        ∃ p ∈ c, resource_id_from_label registry p.1 = none) →
      ∃ label, resource_id_from_label registry label = none ∧
        from_json registry j
          = .error ⟨"invalid entity component: " ++ label,
              sceneLocInvalidComponent⟩) ∧
    (from_json ["known_label"]
        (Json.obj [("entities", Json.arr
          [Json.obj [("components",
            Json.obj [("unknown_label", Json.null)])]])])
      = .error ⟨"invalid entity component: " ++ "unknown_label",
          sceneLocInvalidComponent⟩) := by
  refine ⟨?_, ?_, ?_, ?_⟩
  · intro hnone
    unfold from_json
    rw [hnone]
  · intro es hes hmiss
    obtain ⟨err, herr⟩ :=
      processEntities_err_of_missing registry es IdStorage.new hmiss
    refine ⟨err, ?_⟩
    unfold from_json
    simp only [hes, herr]
  · intro es hes hall hunk
    obtain ⟨label, h1, h2⟩ :=
      processEntities_err_of_unknown registry es IdStorage.new hall hunk
    refine ⟨label, h1, ?_⟩
    unfold from_json
    simp only [hes, h2]
  · rfl

/-- Witness for C9: a document without an `entities` array is rejected
with the exact error of core scene.rs:325. -/
theorem from_json_error_cases_witness :
    from_json [] (Json.obj [])
      = .error ⟨"no entities found in scene JSON", sceneLocNoEntities⟩ :=
  (from_json_error_cases [] (Json.obj [])).1 rfl


end Ovis
